import Mathlib

/-!
Verification development for the smali method rewriter
(`src/utils/smalikit.py` of HyperOS-Port-Python).

Strings are modelled as `List Char` (Python `str` indexes by code point).
The Python standard-library pieces the rewriter calls are modelled
operationally:

* `str.replace` (all occurrences and `count=1`) as `replaceAll` / `replaceOnce`,
  including CPython's empty-needle behaviour;
* the `in` substring test as `containsSub`;
* `int(...)` as `pyToInt` (surrounding whitespace, optional sign, digits;
  digit-group underscores are not modelled — no claim depends on them);
* the `re` module, for the pattern shapes the program actually compiles,
  as a backtracking matcher `matchA` over an atom list (`Atom`), with
  multiline `^`, DOTALL/non-DOTALL `.`, `\s`, `[^\n\r]`, literals, greedy and
  lazy stars of single-character classes, and numbered capture groups.
  `re.escape` only quotes metacharacters, so an escaped selector is modelled
  as a literal atom.  Patterns appear in compiled (atom-list) form; pattern
  *string* parsing is outside every claim.

Whitespace for `\s` / `str.strip` is the ASCII/Latin-1 whitespace set; the
source files are ASCII so the wider Unicode set never differs on them.
-/

abbrev Str := List Char

/-- Python whitespace (`\s`, `str.strip`), ASCII/Latin-1 fragment. -/
def isPySpace (c : Char) : Bool :=
  c == ' ' || c == '\t' || c == '\n' || c == '\r' || c == '\x0b' || c == '\x0c' ||
  c == '\x1c' || c == '\x1d' || c == '\x1e' || c == '\x1f' || c == '\x85' || c == '\xa0'

/-- Python `str.strip()`: drop leading and trailing whitespace. -/
def pyStrip (s : Str) : Str :=
  ((s.dropWhile isPySpace).reverse.dropWhile isPySpace).reverse

/-- Python `str.split('\n')`: `"" ↦ [""]`, separators are not kept. -/
def splitNL : Str → List Str
  | [] => [[]]
  | c :: rest =>
    match splitNL rest with
    | [] => [[]]
    | l :: ls => if c = '\n' then [] :: l :: ls else (c :: l) :: ls

/-- Python `'\n'.join(...)`. -/
def joinNL (ls : List Str) : Str :=
  List.intercalate ['\n'] ls

/-- Python substring test `sub in s`. -/
def containsSub (sub : Str) : Str → Bool
  | [] => sub.isEmpty
  | c :: rest => sub.isPrefixOf (c :: rest) || containsSub sub rest

/-- Scanning core of `str.replace` for a non-empty needle `o :: os`.  The
fuel starts at the scanned string's length and is enough to finish; it only
makes the left-to-right scan structurally recursive. -/
def replBody (o : Char) (os new : Str) : Nat → Str → Str
  | _, [] => []
  | 0, s => s
  | fuel + 1, c :: rest =>
    if (o :: os).isPrefixOf (c :: rest) then
      new ++ replBody o os new fuel (rest.drop os.length)
    else c :: replBody o os new fuel rest

/-- Python `s.replace(old, new)`: all non-overlapping occurrences, left to
right; CPython's empty needle inserts `new` around every character. -/
def replaceAll (s old new : Str) : Str :=
  match old with
  | [] => new ++ s.flatMap (fun c => c :: new)
  | o :: os => replBody o os new s.length s

/-- Scanning core of `str.replace` with `count = 1`, non-empty needle. -/
def replOnceBody (o : Char) (os new : Str) : Str → Str
  | [] => []
  | c :: rest =>
    if (o :: os).isPrefixOf (c :: rest) then new ++ rest.drop os.length
    else c :: replOnceBody o os new rest

/-- Python `s.replace(old, new, 1)`: first occurrence only. -/
def replaceOnce (s old new : Str) : Str :=
  match old with
  | [] => new ++ s
  | o :: os => replOnceBody o os new s

/-- Value of a non-empty all-digits string. -/
def digitsVal (s : Str) : Option Nat :=
  if s.isEmpty then none
  else
    s.foldl
      (fun acc c =>
        match acc with
        | none => none
        | some n => if '0' ≤ c && c ≤ '9' then some (n * 10 + (c.toNat - '0'.toNat)) else none)
      (some 0)

/-- Python `int(str)`: strip whitespace, optional sign, decimal digits;
`none` models the `ValueError` branch. -/
def pyToInt (s : Str) : Option Int :=
  match pyStrip s with
  | '-' :: ds => (digitsVal ds).map (fun n => -(n : Int))
  | '+' :: ds => (digitsVal ds).map (fun n => (n : Int))
  | ds => (digitsVal ds).map (fun n => (n : Int))

/-- The source's `x.replace('\\n', '\n')`: expand two-character `\n` escapes. -/
def expandEsc (s : Str) : Str :=
  replaceAll s ['\\', 'n'] ['\n']

/-- Half-open slice `s[a:b]` of a string (Python slicing with `0 ≤ a ≤ b`). -/
def pySlice (s : Str) (a b : Nat) : Str :=
  (s.take b).drop a

/-- Truthiness of an optional Python string: `None` and `""` are falsy. -/
def strTruthy : Option Str → Bool
  | none => false
  | some s => !s.isEmpty

/-- Character classes occurring in the program's patterns. -/
inductive CharClass where
  | anyNoNL
  | anyAll
  | ws
  | notNL
deriving DecidableEq, Repr

/-- Membership: `.` without DOTALL, `.` with DOTALL, `\s`, `[^\n\r]`. -/
def CharClass.mem : CharClass → Char → Bool
  | .anyNoNL, c => c != '\n'
  | .anyAll, _ => true
  | .ws, c => isPySpace c
  | .notNL, c => c != '\n' && c != '\r'

/-- One element of a compiled pattern: multiline `^`, a literal, one
character of a class, a greedy star of a class, a lazy star of a class,
and numbered group-open / group-close marks. -/
inductive Atom where
  | bol
  | lit (cs : Str)
  | one (cl : CharClass)
  | starG (cl : CharClass)
  | starL (cl : CharClass)
  | openG (n : Nat)
  | closeG (n : Nat)
deriving DecidableEq, Repr

/-- Result of matching a pattern tail at a position: end position and the
positions at which each group opened and closed. -/
structure MRes where
  mend : Nat
  opens : List (Nat × Nat)
  closes : List (Nat × Nat)
deriving DecidableEq, Repr

/-- First `some` of `f 0, f 1, …, f (n-1)` — the backtracking order of a
bounded quantifier. -/
def firstSome {β : Type} : Nat → (Nat → Option β) → Option β
  | 0, _ => none
  | n + 1, f =>
    match f 0 with
    | some b => some b
    | none => firstSome n (fun i => f (i + 1))

/-- Length of the maximal run of class `cl` starting at position `p`. -/
def runLen (cl : CharClass) (s : Str) (p : Nat) : Nat :=
  ((s.drop p).takeWhile (fun c => cl.mem c)).length

/-- Does the literal `t` occur at position `p` of `s`? -/
def startsWithAt (s : Str) (p : Nat) (t : Str) : Bool :=
  t.isPrefixOf (s.drop p)

/-- Multiline `^`: start of string or just after a `'\n'`. -/
def lineStart (s : Str) (p : Nat) : Bool :=
  p == 0 || s.get? (p - 1) == some '\n'

/-- Backtracking matcher: Python `re` semantics for patterns made of the
atoms above.  A greedy star tries the longest repetition first, a lazy star
the shortest; the first alternative whose continuation succeeds wins. -/
def matchA : List Atom → Str → Nat → Option MRes
  | [], _, p => some ⟨p, [], []⟩
  | .bol :: rest, s, p => if lineStart s p then matchA rest s p else none
  | .lit cs :: rest, s, p =>
    if startsWithAt s p cs then matchA rest s (p + cs.length) else none
  | .one cl :: rest, s, p =>
    match s.get? p with
    | some c => if cl.mem c then matchA rest s (p + 1) else none
    | none => none
  | .starG cl :: rest, s, p =>
    firstSome (runLen cl s p + 1) (fun i => matchA rest s (p + (runLen cl s p - i)))
  | .starL cl :: rest, s, p =>
    firstSome (runLen cl s p + 1) (fun i => matchA rest s (p + i))
  | .openG n :: rest, s, p =>
    (matchA rest s p).map (fun r => ⟨r.mend, (n, p) :: r.opens, r.closes⟩)
  | .closeG n :: rest, s, p =>
    (matchA rest s p).map (fun r => ⟨r.mend, r.opens, (n, p) :: r.closes⟩)

/-- A match as delivered by scanning: span `[mstart, mend)` plus group marks. -/
structure FMatch where
  mstart : Nat
  mend : Nat
  opens : List (Nat × Nat)
  closes : List (Nat × Nat)
deriving DecidableEq, Repr

/-- Leftmost match at or after position `p` (the `re` scan tries every
start position in increasing order). -/
def findFrom (pat : List Atom) (s : Str) (p : Nat) : Option FMatch :=
  firstSome (s.length + 1 - p) (fun i =>
    (matchA pat s (p + i)).map (fun r => ⟨p + i, r.mend, r.opens, r.closes⟩))

/-- Scanning worker for `finditer`: after a match, continue at its end
(one past it for an empty match). -/
def finditerAux (pat : List Atom) (s : Str) : Nat → Nat → List FMatch
  | 0, _ => []
  | fuel + 1, p =>
    match findFrom pat s p with
    | none => []
    | some m =>
      m :: finditerAux pat s fuel (if m.mend = m.mstart then m.mend + 1 else m.mend)

/-- Python `pattern.finditer(s)`, as a list. -/
def finditer (pat : List Atom) (s : Str) : List FMatch :=
  finditerAux pat s (s.length + 1) 0

/-- Span of group `n` in a match (our groups always participate). -/
def FMatch.grp (m : FMatch) (n : Nat) : Nat × Nat :=
  ((m.opens.lookup n).getD 0, (m.closes.lookup n).getD 0)

/-- One piece of a substitution template: literal text or a group
backreference (an unmatched group expands to `""`, Python ≥ 3.5). -/
inductive ReplItem where
  | txt (cs : Str)
  | grpRef (n : Nat)
deriving DecidableEq, Repr

/-- Expand a substitution template against one match. -/
def expandRepl (s : Str) (m : FMatch) (repl : List ReplItem) : Str :=
  repl.flatMap (fun it =>
    match it with
    | .txt cs => cs
    | .grpRef n => pySlice s (m.grp n).1 (m.grp n).2)

/-- Scanning worker for `pattern.sub`: replace each non-overlapping match
left to right; after an empty match copy one character and move on. -/
def subAllAux (pat : List Atom) (repl : List ReplItem) (s : Str) : Nat → Nat → Str
  | 0, p => s.drop p
  | fuel + 1, p =>
    match findFrom pat s p with
    | none => s.drop p
    | some m =>
      pySlice s p m.mstart ++ expandRepl s m repl ++
        (if m.mend = m.mstart then
          (match s.get? m.mstart with
           | some c => c :: subAllAux pat repl s fuel (m.mstart + 1)
           | none => [])
         else subAllAux pat repl s fuel m.mend)

/-- Python `pattern.sub(repl, s)` (all occurrences). -/
def pySub (pat : List Atom) (repl : List ReplItem) (s : Str) : Str :=
  subAllAux pat repl s (s.length + 1) 0

/-- Python `pattern.search(s) is not None`. -/
def pySearch (pat : List Atom) (s : Str) : Bool :=
  (findFrom pat s 0).isSome

/-- The argument record of `SmaliArgs` (the fields `patch_file`/`path` and
`recursive` drive only filesystem traversal, which is outside the claims).
String-valued optional arguments keep Python's `None`-vs-`""` distinction
through `strTruthy`; two-argument flags are pairs (a list of two strings is
always truthy in Python).  `regex_replace` carries the pattern in compiled
form together with the parsed substitution template. -/
structure SmaliArgs where
  method : Option Str
  seek_keyword : Option Str
  iname : Option Str
  remake : Option Str
  replace_in_method : Option (Str × Str)
  regex_replace : Option (List Atom × List ReplItem)
  delete_in_method : Option Str
  delete_method : Bool
  after_line : Option (Str × Str)
  before_line : Option (Str × Str)
  insert_line : Option (Str × Str)
  return_type : Option Str

/-- All-defaults argument record (every flag absent). -/
def noArgs : SmaliArgs :=
  ⟨none, none, none, none, none, none, none, false, none, none, none, none⟩

/-- Step 1, `-remake`: replace the whole body by the escaped text wrapped in
the indentation convention; unconditionally reports a change. -/
def remakeStep (arg : Option Str) (st : Str × Bool) : Str × Bool :=
  match arg with
  | none => st
  | some r =>
    if r.isEmpty then st
    else ('\n' :: ("    ").data ++ expandEsc r ++ ['\n'], true)

/-- Step 2, `-rim`: literal replace-all, guarded by a substring test. -/
def rimStep (arg : Option (Str × Str)) (st : Str × Bool) : Str × Bool :=
  match arg with
  | none => st
  | some (o, n) =>
    if containsSub o st.1 then (replaceAll st.1 o n, true) else st

/-- Step 3, `-reg`: regex substitution, guarded by `pattern.search`. -/
def regStep (arg : Option (List Atom × List ReplItem)) (st : Str × Bool) : Str × Bool :=
  match arg with
  | none => st
  | some (pat, repl) =>
    if pySearch pat st.1 then (pySub pat repl st.1, true) else st

/-- Step 4, `-dim`: delete all occurrences of a literal. -/
def dimStep (arg : Option Str) (st : Str × Bool) : Str × Bool :=
  match arg with
  | none => st
  | some t =>
    if t.isEmpty then st
    else if containsSub t st.1 then (replaceAll st.1 t [], true) else st

/-- Step 5, `-al`: insert a line after every occurrence of the anchor. -/
def alStep (arg : Option (Str × Str)) (st : Str × Bool) : Str × Bool :=
  match arg with
  | none => st
  | some (t, a) =>
    if containsSub t st.1 then (replaceAll st.1 t (t ++ '\n' :: ("    ").data ++ a), true)
    else st

/-- Step 6, `-bl`: insert a line before every occurrence of the anchor. -/
def blStep (arg : Option (Str × Str)) (st : Str × Bool) : Str × Bool :=
  match arg with
  | none => st
  | some (t, a) =>
    if containsSub t st.1 then (replaceAll st.1 t (("    ").data ++ a ++ '\n' :: t), true)
    else st

/-- The block a malformed `-il` index skips to: lines of the escaped code,
each stripped and re-indented, joined back. -/
def ilBlock (code : Str) : Str :=
  joinNL ((splitNL (expandEsc code)).map (fun l => ("    ").data ++ pyStrip l))

/-- The `-il` boundary check: a negative index becomes 0, an index above the
line count becomes the line count (in the source's test order). -/
def clampIdx (i : Int) (len : Nat) : Nat :=
  (if (if i < 0 then 0 else i) > (len : Int) then (len : Int)
   else (if i < 0 then 0 else i)).toNat

/-- Step 7, `-il`: parse the index (a `ValueError` leaves the state exactly
as produced so far), split the body on newlines, clamp the index to
`[0, len(lines)]`, insert the formatted block (`list.insert` at a clamped
index is take ++ element :: drop), rejoin. -/
def ilStep (arg : Option (Str × Str)) (st : Str × Bool) : Str × Bool :=
  match arg with
  | none => st
  | some (sIdx, code) =>
    match pyToInt sIdx with
    | none => st
    | some i0 =>
      (joinNL ((splitNL st.1).take (clampIdx i0 (splitNL st.1).length) ++
        ilBlock code :: (splitNL st.1).drop (clampIdx i0 (splitNL st.1).length)), true)

/-- `SmaliKit.apply_modifications`: the fixed chain of the seven body
primitives, threading `(new_body, is_modified)`. -/
def applyModifications (args : SmaliArgs) (body : Str) : Str × Bool :=
  ilStep args.insert_line
    (blStep args.before_line
      (alStep args.after_line
        (dimStep args.delete_in_method
          (regStep args.regex_replace
            (rimStep args.replace_in_method
              (remakeStep args.remake (body, false)))))))

/-- The selector part of the compiled pattern (`%s` in the source): a full
signature is matched verbatim, a bare name gets `\s*\(` appended, and with
only `-seek` every method matches (`.*?` under DOTALL). -/
def modeAtoms (args : SmaliArgs) : Option (List Atom) :=
  if strTruthy args.method then
    if containsSub (("(").data) (args.method.getD []) then some [.lit (args.method.getD [])]
    else some [.lit (args.method.getD []), .starG .ws, .lit ("(").data]
  else if strTruthy args.seek_keyword then some [.starL .anyAll]
  else none

/-- The literal footer marker `.end method`. -/
def endLit : Str := (".end method").data

/-- The literal header marker `.method`. -/
def methodLit : Str := (".method").data

/-- The part of `method_pattern` following the selector: end of the header
line, the lazy body, and the footer `^\s*\.end method`, with the three
numbered groups 1 = header, 2 = body, 3 = footer. -/
def suffixAtoms : List Atom :=
  [.closeG 1, .openG 2, .starL .anyAll, .closeG 2,
   .openG 3, .bol, .starG .ws, .lit endLit, .closeG 3]

/-- `SmaliKit.__init__`'s compiled `method_pattern`; `none` is the
`sys.exit(1)` taken when neither `-m` nor `-seek` is truthy. -/
def mkMethodPattern (args : SmaliArgs) : Option (List Atom) :=
  (modeAtoms args).map (fun ma =>
    [.openG 1, .bol, .starG .ws, .lit methodLit, .starL .notNL, .one .ws] ++
      ma ++ [.starG .notNL] ++ suffixAtoms)

/-- `match.group('header')`. -/
def headerOf (content : Str) (m : FMatch) : Str :=
  pySlice content (m.grp 1).1 (m.grp 1).2

/-- `match.group('body')`. -/
def bodyOf (content : Str) (m : FMatch) : Str :=
  pySlice content (m.grp 2).1 (m.grp 2).2

/-- `match.group('footer')`. -/
def footerOf (content : Str) (m : FMatch) : Str :=
  pySlice content (m.grp 3).1 (m.grp 3).2

/-- `match.group(0)`. -/
def fullOf (content : Str) (m : FMatch) : Str :=
  pySlice content m.mstart m.mend

/-- The `f"){return_type}"` token of the return-type filter. -/
def retSig (args : SmaliArgs) : Str :=
  ')' :: args.return_type.getD []

/-- The per-match step of `process_content`'s loop: apply the keyword and
return-type filters, then either record a whole-block deletion or run the
body chain and record `(full_block, new_block)` when the block text
actually changed. -/
def processMatch (args : SmaliArgs) (content : Str) (acc : List (Str × Str) × Bool)
    (m : FMatch) : List (Str × Str) × Bool :=
  if strTruthy args.seek_keyword && !containsSub (args.seek_keyword.getD []) (bodyOf content m) then
    acc
  else if strTruthy args.return_type && !containsSub (retSig args) (headerOf content m) then
    acc
  else if args.delete_method then
    (acc.1 ++ [(fullOf content m, [])], true)
  else
    if (applyModifications args (bodyOf content m)).2 then
      if fullOf content m =
          headerOf content m ++ (applyModifications args (bodyOf content m)).1 ++
            footerOf content m then
        acc
      else
        (acc.1 ++ [(fullOf content m,
          headerOf content m ++ (applyModifications args (bodyOf content m)).1 ++
            footerOf content m)], true)
    else acc

/-- Replacement list and modified flag accumulated over all matches. -/
def procAcc (args : SmaliArgs) (pat : List Atom) (content : Str) :
    List (Str × Str) × Bool :=
  (finditer pat content).foldl (processMatch args content) ([], false)

/-- `SmaliKit.process_content`: locate, filter, transform, then splice each
`(old, new)` pair by replacing the first remaining occurrence of `old`. -/
def processContent (args : SmaliArgs) (pat : List Atom) (content : Str) : Str × Bool :=
  if (finditer pat content).isEmpty then (content, false)
  else
    ((procAcc args pat content).1.foldl (fun c r => replaceOnce c r.1 r.2) content,
     (procAcc args pat content).2)

/-- The fast-reject test of `patch_file`: a literal method selector that is
absent from the raw content, with no keyword search active. -/
def fastRejected (args : SmaliArgs) (content : Str) : Bool :=
  strTruthy args.method && !containsSub (args.method.getD []) content &&
    !strTruthy args.seek_keyword

/-- `SmaliKit.patch_file` on one file's content: the returned pair is the
content on disk afterwards and whether a write happened.  The write is
guarded only by the modified flag — the new content is **not** compared
with the original. -/
def patchFile (args : SmaliArgs) (pat : List Atom) (content : Str) : Str × Bool :=
  if fastRejected args content then (content, false)
  else if (processContent args pat content).2 then ((processContent args pat content).1, true)
  else (content, false)

/-- Construction plus patching: `none` is the configuration-error exit of
`SmaliKit.__init__`, taken before any file is read. -/
def runOnFile (args : SmaliArgs) (content : Str) : Option (Str × Bool) :=
  (mkMethodPattern args).map (fun pat => patchFile args pat content)

/-- Does a match contribute a replacement (and so set the modified flag)? -/
def contributes (args : SmaliArgs) (content : Str) (m : FMatch) : Bool :=
  if strTruthy args.seek_keyword && !containsSub (args.seek_keyword.getD []) (bodyOf content m) then
    false
  else if strTruthy args.return_type && !containsSub (retSig args) (headerOf content m) then
    false
  else if args.delete_method then true
  else
    (applyModifications args (bodyOf content m)).2 &&
      !(fullOf content m ==
        headerOf content m ++ (applyModifications args (bodyOf content m)).1 ++
          footerOf content m)

/-- Does the footer pattern `^\s*\.end method` match at position `q`? -/
def footerMatch (s : Str) (q : Nat) : Bool :=
  (matchA [.bol, .starG .ws, .lit endLit] s q).isSome

/-- Every match spans at least one character. -/
def strictSpans (ms : List FMatch) : Prop :=
  ∀ m ∈ ms, m.mstart < m.mend

/-- Consecutive matches are ordered by position and do not overlap. -/
def orderedDisjoint (ms : List FMatch) : Prop :=
  List.Chain' (fun m1 m2 => m1.mend ≤ m2.mstart) ms

/-- The header, body and footer groups tile the whole match, and the footer
group begins at the *nearest* position after the header at which the footer
marker matches — the lazy body never runs past an intervening footer. -/
def blockShape (content : Str) (m : FMatch) : Prop :=
  (m.grp 1).1 = m.mstart ∧ (m.grp 1).2 = (m.grp 2).1 ∧ (m.grp 2).2 = (m.grp 3).1 ∧
  (m.grp 3).2 = m.mend ∧
  footerMatch content (m.grp 3).1 = true ∧
  ∀ q, (m.grp 2).1 ≤ q → q < (m.grp 3).1 → footerMatch content q = false

/-- What holds of a replacement pair appended by one iteration of
`process_content`'s match loop. -/
def stepAdds (args : SmaliArgs) (content : Str) (m : FMatch) (r : Str × Str) : Prop :=
  (strTruthy args.seek_keyword = true →
    containsSub (args.seek_keyword.getD []) (bodyOf content m) = true) ∧
  (strTruthy args.return_type = true →
    containsSub (retSig args) (headerOf content m) = true) ∧
  r.1 = fullOf content m ∧
  ((args.delete_method = true ∧ r.2 = []) ∨
   (args.delete_method = false ∧ (applyModifications args (bodyOf content m)).2 = true ∧
    r.2 = headerOf content m ++ (applyModifications args (bodyOf content m)).1 ++
      footerOf content m ∧
    r.1 ≠ r.2))

/-- Two argument records with the same selector and filter fields and the
same delete flag (the seven transform fields may differ arbitrarily). -/
def selectorAgree (a b : SmaliArgs) : Prop :=
  a.method = b.method ∧ a.seek_keyword = b.seek_keyword ∧
  a.return_type = b.return_type ∧ a.delete_method = b.delete_method

/-- A replacement pair originates in a located block that passed both the
keyword filter and the return-type filter. -/
def passesFilters (args : SmaliArgs) (pat : List Atom) (content : Str) (r : Str × Str) : Prop :=
  ∃ m ∈ finditer pat content,
    r.1 = fullOf content m ∧
    containsSub (args.seek_keyword.getD []) (bodyOf content m) = true ∧
    containsSub (retSig args) (headerOf content m) = true

/-- A replacement pair whose old text is a located block split as
header ++ body ++ footer and whose new text keeps the original header and
footer bytes around the transformed body. -/
def splicedFromBlock (args : SmaliArgs) (pat : List Atom) (content : Str) (r : Str × Str) : Prop :=
  ∃ m ∈ finditer pat content,
    r.1 = headerOf content m ++ bodyOf content m ++ footerOf content m ∧
    r.2 = headerOf content m ++ (applyModifications args (bodyOf content m)).1 ++
      footerOf content m

/-- A replacement pair that deletes the full text of a located block. -/
def deleteRep (pat : List Atom) (content : Str) (r : Str × Str) : Prop :=
  ∃ m ∈ finditer pat content, r = (fullOf content m, [])

/-- Compiled `(.)(.)` — two groups of one non-newline character each. -/
def swapPairPat : List Atom :=
  [.openG 1, .one .anyNoNL, .closeG 1, .openG 2, .one .anyNoNL, .closeG 2]

/-- `-m a -reg "(.)(.)" "\2\1"` (fields: method, seek, iname, remake, rim,
reg, dim, dm, al, bl, il, ret). -/
def c1Args : SmaliArgs :=
  ⟨some ("a").data, none, none, none, none, some (swapPairPat, [.grpRef 2, .grpRef 1]),
   none, false, none, none, none, none⟩

/-- The compiled method pattern for `c1Args`. -/
def c1Pat : List Atom := (mkMethodPattern c1Args).getD []

/-- Two `a()V` blocks whose bodies are each other's adjacent-pair swap. -/
def c1Content : Str :=
  (".method a()V\nXY\n.end method\n.method a()V\nYX\n.end method").data

/-- `-m a` with no transform flags (fields as in `c1Args`). -/
def c2wArgs : SmaliArgs :=
  ⟨some ("a").data, none, none, none, none, none, none, false, none, none, none, none⟩

/-- The compiled method pattern for `c2wArgs`. -/
def c2wPat : List Atom := (mkMethodPattern c2wArgs).getD []

/-- Two small `a()V` blocks. -/
def c2wContent : Str :=
  (".method a()V\nX\n.end method\n.method a()V\nY\n.end method").data

/-- The first block located in `c2wContent`. -/
def c2wMatch : FMatch :=
  ⟨0, 26, [(1, 0), (2, 12), (3, 15)], [(1, 12), (2, 15), (3, 26)]⟩

/-- `-m a -remake nop`. -/
def c3Args : SmaliArgs :=
  ⟨some ("a").data, none, none, some ("nop").data, none, none, none, false,
   none, none, none, none⟩

/-- The compiled method pattern for `c3Args`. -/
def c3Pat : List Atom := (mkMethodPattern c3Args).getD []

/-- A single `a()V` block with body `    old`. -/
def c3Start : Str := (".method a()V\n    old\n.end method").data

/-- `c3Start` after one benign FullRewrite run. -/
def c3Rewritten : Str := (".method a()V\n    nop\n.end method").data

/-- `-m a -remake "x\n.end method"`: the rewrite text smuggles in a
line-start footer marker. -/
def c3BadArgs : SmaliArgs :=
  ⟨some ("a").data, none, none, some ("x\\n.end method").data, none, none, none, false,
   none, none, none, none⟩

/-- The compiled method pattern for `c3BadArgs`. -/
def c3BadPat : List Atom := (mkMethodPattern c3BadArgs).getD []

/-- `-seek app_store_recommend -ret Z` with no transform flags. -/
def c4Args : SmaliArgs :=
  ⟨none, some ("app_store_recommend").data, none, none, none, none, none, false,
   none, none, none, some ("Z").data⟩

/-- The compiled method pattern for `c4Args` (keyword mode). -/
def c4Pat : List Atom := (mkMethodPattern c4Args).getD []

/-- Three blocks of return types Z, V, Z; only the V one contains the
keyword. -/
def c4Content : Str :=
  (".method a()Z\nx\n.end method\n.method b()V\n app_store_recommend\n.end method\n.method c()Z\ny\n.end method").data

/-- `-seek app_store_recommend -ret V -dm`: both filters active and the
middle block passes both. -/
def c4wArgs : SmaliArgs :=
  ⟨none, some ("app_store_recommend").data, none, none, none, none, none, true,
   none, none, none, some ("V").data⟩

/-- The compiled method pattern for `c4wArgs`. -/
def c4wPat : List Atom := (mkMethodPattern c4wArgs).getD []

/-- The replacement pair produced for the middle block of `c4Content`
under `c4wArgs`. -/
def c4wRep : Str × Str :=
  ((".method b()V\n app_store_recommend\n.end method").data, [])

/-- `-m a -dm`. -/
def c5Args : SmaliArgs :=
  ⟨some ("a").data, none, none, none, none, none, none, true, none, none, none, none⟩

/-- The compiled method pattern for `c5Args`. -/
def c5Pat : List Atom := (mkMethodPattern c5Args).getD []

/-- The block text occurs twice: once at offset 1 (mid-line, hence not a
located block) and once at a line start (located). -/
def c5Content : Str :=
  ("x.method a()V\nq\n.end method\n.method a()V\nq\n.end method").data

/-- What the splice actually produces on `c5Content`: the *first*
occurrence is removed, so the located block's bytes survive. -/
def c5Result : Str := ("x\n.method a()V\nq\n.end method").data

/-- `-m checkDowngrade -dm`. -/
def c5dArgs : SmaliArgs :=
  ⟨some ("checkDowngrade").data, none, none, none, none, none, none, true,
   none, none, none, none⟩

/-- The compiled method pattern for `c5dArgs`. -/
def c5dPat : List Atom := (mkMethodPattern c5dArgs).getD []

/-- Two `checkDowngrade` blocks with surrounding unrelated text. -/
def c5dContent : Str :=
  ("# pre\n.method checkDowngrade()Z\nA\n.end method\nmid\n.method checkDowngrade()Z\nB\n.end method\n# post").data

/-- `c5dContent` with both blocks (and nothing else) removed. -/
def c5dResult : Str := ("# pre\n\nmid\n\n# post").data

/-- `c5dArgs` with an arbitrary transform flag added (for the
transform-independence witness). -/
def c5wB : SmaliArgs :=
  ⟨some ("checkDowngrade").data, none, none, some ("nop").data, none, none, none, true,
   none, none, none, none⟩

/-- A five-line body for the indexed-insertion boundary checks. -/
def il5Body : Str := ("l1\nl2\nl3\nl4\nl5").data

/-- `-m a -rim X Y -il oops nop`: a malformed insertion index after an
active literal replacement. -/
def c9Args : SmaliArgs :=
  ⟨some ("a").data, none, none, none, some (("X").data, ("Y").data), none, none, false,
   none, none, some (("oops").data, ("nop").data), none⟩

/-- `c9Args` without the malformed `-il` flag. -/
def c9ArgsNoIl : SmaliArgs :=
  ⟨some ("a").data, none, none, none, some (("X").data, ("Y").data), none, none, false,
   none, none, none, none⟩

/-- `-m a -rim X Y`. -/
def c10wArgs : SmaliArgs :=
  ⟨some ("a").data, none, none, none, some (("X").data, ("Y").data), none, none, false,
   none, none, none, none⟩

/-- The compiled method pattern for `c10wArgs`. -/
def c10wPat : List Atom := (mkMethodPattern c10wArgs).getD []

/-- One `a()V` block whose body contains `X`. -/
def c10wContent : Str := (".method a()V\nX\n.end method").data

/-- The replacement pair produced for that block. -/
def c10wRep : Str × Str :=
  ((".method a()V\nX\n.end method").data, (".method a()V\nY\n.end method").data)

/-- Eliminating a successful bounded backtracking search: some index hits,
and every smaller index misses. -/
theorem firstSome_eq_some {β : Type} :
    ∀ (n : Nat) (f : Nat → Option β) (b : β), firstSome n f = some b →
      ∃ i, i < n ∧ f i = some b ∧ ∀ j, j < i → f j = none := by
  intro n
  induction n with
  | zero => intro f b h; simp [firstSome] at h
  | succ n ih =>
    intro f b h
    rw [firstSome] at h
    cases h0 : f 0 with
    | some b2 =>
      rw [h0] at h
      exact ⟨0, Nat.succ_pos n, h0.trans h, by omega⟩
    | none =>
      rw [h0] at h
      obtain ⟨i, hi, hf, hmin⟩ := ih _ b h
      refine ⟨i + 1, by omega, hf, ?_⟩
      intro j hj
      cases j with
      | zero => exact h0
      | succ j => exact hmin j (by omega)

/-- A bounded backtracking search succeeds iff some index succeeds. -/
theorem firstSome_isSome {β : Type} :
    ∀ (n : Nat) (f : Nat → Option β),
      (firstSome n f).isSome = true ↔ ∃ i, i < n ∧ (f i).isSome = true := by
  intro n
  induction n with
  | zero => intro f; simp [firstSome]
  | succ n ih =>
    intro f
    rw [firstSome]
    cases h0 : f 0 with
    | some b2 =>
      simp only [Option.isSome_some, true_iff]
      exact ⟨0, Nat.succ_pos n, by rw [h0]; rfl⟩
    | none =>
      rw [ih]
      constructor
      · rintro ⟨i, hi, hf⟩; exact ⟨i + 1, by omega, hf⟩
      · rintro ⟨i, hi, hf⟩
        cases i with
        | zero => rw [h0] at hf; simp at hf
        | succ i => exact ⟨i, by omega, hf⟩

/-- Two searches with pointwise equi-successful candidates are
equi-successful. -/
theorem firstSome_isSome_congr {β γ : Type} (n : Nat) (f : Nat → Option β)
    (g : Nat → Option γ) (h : ∀ i, (f i).isSome = (g i).isSome) :
    (firstSome n f).isSome = (firstSome n g).isSome := by
  by_cases hf : (firstSome n f).isSome = true
  · obtain ⟨i, hi, hfi⟩ := (firstSome_isSome n f).mp hf
    rw [hf]
    exact ((firstSome_isSome n g).mpr ⟨i, hi, (h i) ▸ hfi⟩).symm
  · rw [Bool.not_eq_true] at hf
    rw [hf]
    by_cases hg : (firstSome n g).isSome = true
    · obtain ⟨i, hi, hgi⟩ := (firstSome_isSome n g).mp hg
      have : (firstSome n f).isSome = true := (firstSome_isSome n f).mpr ⟨i, hi, (h i) ▸ hgi⟩
      rw [this] at hf; cases hf
    · rw [Bool.not_eq_true] at hg; rw [hg]

/-- Matching an empty pattern tail. -/
theorem matchA_nil_elim {s : Str} {p : Nat} {r : MRes} (h : matchA [] s p = some r) :
    r = ⟨p, [], []⟩ := by
  rw [matchA] at h
  exact (Option.some_inj.mp h).symm

/-- Matching a `^` atom. -/
theorem matchA_bol_elim {rest : List Atom} {s : Str} {p : Nat} {r : MRes}
    (h : matchA (.bol :: rest) s p = some r) :
    lineStart s p = true ∧ matchA rest s p = some r := by
  rw [matchA] at h
  by_cases hl : lineStart s p = true
  · rw [if_pos hl] at h; exact ⟨hl, h⟩
  · rw [Bool.not_eq_true] at hl; rw [hl] at h; simp at h

/-- Matching a literal atom. -/
theorem matchA_lit_elim {cs : Str} {rest : List Atom} {s : Str} {p : Nat} {r : MRes}
    (h : matchA (.lit cs :: rest) s p = some r) :
    startsWithAt s p cs = true ∧ matchA rest s (p + cs.length) = some r := by
  rw [matchA] at h
  by_cases hl : startsWithAt s p cs = true
  · rw [if_pos hl] at h; exact ⟨hl, h⟩
  · rw [Bool.not_eq_true] at hl; rw [hl] at h; simp at h

/-- Matching a single-character class atom. -/
theorem matchA_one_elim {cl : CharClass} {rest : List Atom} {s : Str} {p : Nat} {r : MRes}
    (h : matchA (.one cl :: rest) s p = some r) :
    ∃ c, s.get? p = some c ∧ cl.mem c = true ∧ matchA rest s (p + 1) = some r := by
  rw [matchA] at h
  split at h
  next c hg =>
    split at h
    next hc => exact ⟨c, hg, hc, h⟩
    next => cases h
  next => cases h

/-- Eliminating a greedy star: the tail matched at some position within the
run. -/
theorem matchA_starG_elim {cl : CharClass} {rest : List Atom} {s : Str} {p : Nat} {r : MRes}
    (h : matchA (.starG cl :: rest) s p = some r) :
    ∃ q, p ≤ q ∧ q ≤ p + runLen cl s p ∧ matchA rest s q = some r := by
  rw [matchA] at h
  obtain ⟨i, hi, hf, _⟩ := firstSome_eq_some _ _ _ h
  exact ⟨p + (runLen cl s p - i), by omega, by omega, hf⟩

/-- Eliminating a lazy star: the tail matched after the *fewest* possible
repetitions — it fails at every earlier position. -/
theorem matchA_starL_elim {cl : CharClass} {rest : List Atom} {s : Str} {p : Nat} {r : MRes}
    (h : matchA (.starL cl :: rest) s p = some r) :
    ∃ i, i ≤ runLen cl s p ∧ matchA rest s (p + i) = some r ∧
      ∀ j, j < i → matchA rest s (p + j) = none := by
  rw [matchA] at h
  obtain ⟨i, hi, hf, hmin⟩ := firstSome_eq_some _ _ _ h
  exact ⟨i, by omega, hf, fun j hj => hmin j hj⟩

/-- Eliminating a group-open mark. -/
theorem matchA_openG_elim {n : Nat} {rest : List Atom} {s : Str} {p : Nat} {r : MRes}
    (h : matchA (.openG n :: rest) s p = some r) :
    ∃ r2, matchA rest s p = some r2 ∧ r = ⟨r2.mend, (n, p) :: r2.opens, r2.closes⟩ := by
  rw [matchA] at h
  obtain ⟨r2, h2, he⟩ := Option.map_eq_some'.mp h
  exact ⟨r2, h2, he.symm⟩

/-- Eliminating a group-close mark. -/
theorem matchA_closeG_elim {n : Nat} {rest : List Atom} {s : Str} {p : Nat} {r : MRes}
    (h : matchA (.closeG n :: rest) s p = some r) :
    ∃ r2, matchA rest s p = some r2 ∧ r = ⟨r2.mend, r2.opens, (n, p) :: r2.closes⟩ := by
  rw [matchA] at h
  obtain ⟨r2, h2, he⟩ := Option.map_eq_some'.mp h
  exact ⟨r2, h2, he.symm⟩

/-- A match never ends before its start position. -/
theorem matchA_le : ∀ (atoms : List Atom) (s : Str) (p : Nat) (r : MRes),
    matchA atoms s p = some r → p ≤ r.mend := by
  intro atoms
  induction atoms with
  | nil =>
    intro s p r h
    rw [matchA_nil_elim h]
  | cons a rest ih =>
    intro s p r h
    cases a with
    | bol => exact ih s p r (matchA_bol_elim h).2
    | lit cs =>
      have := ih s (p + cs.length) r (matchA_lit_elim h).2
      omega
    | one cl =>
      obtain ⟨c, _, _, h3⟩ := matchA_one_elim h
      have := ih s (p + 1) r h3
      omega
    | starG cl =>
      obtain ⟨q, hq, _, h3⟩ := matchA_starG_elim h
      have := ih s q r h3
      omega
    | starL cl =>
      obtain ⟨i, _, h3, _⟩ := matchA_starL_elim h
      have := ih s (p + i) r h3
      omega
    | openG n =>
      obtain ⟨r2, h2, he⟩ := matchA_openG_elim h
      have := ih s p r2 h2
      rw [he]
      exact this
    | closeG n =>
      obtain ⟨r2, h2, he⟩ := matchA_closeG_elim h
      have := ih s p r2 h2
      rw [he]
      exact this

/-- A close mark does not affect whether the tail matches. -/
theorem matchA_closeG_isSome (n : Nat) (rest : List Atom) (s : Str) (p : Nat) :
    (matchA (.closeG n :: rest) s p).isSome = (matchA rest s p).isSome := by
  rw [matchA]
  cases matchA rest s p <;> simp

/-- An open mark does not affect whether the tail matches. -/
theorem matchA_openG_isSome (n : Nat) (rest : List Atom) (s : Str) (p : Nat) :
    (matchA (.openG n :: rest) s p).isSome = (matchA rest s p).isSome := by
  rw [matchA]
  cases matchA rest s p <;> simp

/-- A trailing close mark after a literal does not affect matching. -/
theorem matchA_lit_closeG_isSome (cs : Str) (n : Nat) (s : Str) (q : Nat) :
    (matchA [.lit cs, .closeG n] s q).isSome = (matchA [.lit cs] s q).isSome := by
  by_cases h : startsWithAt s q cs = true <;> simp [matchA, h]

/-- The continuation seen by the lazy body star succeeds at `q` exactly when
the footer marker `^\s*\.end method` matches at `q`. -/
theorem suffixTail_isSome (s : Str) (q : Nat) :
    (matchA [.closeG 2, .openG 3, .bol, .starG .ws, .lit endLit, .closeG 3] s q).isSome =
      footerMatch s q := by
  rw [matchA_closeG_isSome, matchA_openG_isSome, footerMatch]
  rw [matchA, matchA]
  by_cases h : lineStart s q = true
  · rw [if_pos h, if_pos h, matchA, matchA]
    exact firstSome_isSome_congr _ _ _ (fun i => matchA_lit_closeG_isSome _ _ _ _)
  · rw [Bool.not_eq_true] at h
    rw [h]
    simp

/-- Dissecting a successful match of the pattern part after the header: the
body group runs from `h0` to the nearest footer-marker position `f0`, every
position strictly between misses the footer marker, and the marks record
exactly the three group boundaries. -/
theorem suffix_elim {s : Str} {h0 : Nat} {r : MRes}
    (hm : matchA suffixAtoms s h0 = some r) :
    ∃ f0, h0 ≤ f0 ∧ f0 ≤ r.mend ∧
      r.opens = [(2, h0), (3, f0)] ∧ r.closes = [(1, h0), (2, f0), (3, r.mend)] ∧
      footerMatch s f0 = true ∧
      ∀ q, h0 ≤ q → q < f0 → footerMatch s q = false := by
  rw [suffixAtoms] at hm
  obtain ⟨r1, h1, he1⟩ := matchA_closeG_elim hm
  obtain ⟨r2, h2, he2⟩ := matchA_openG_elim h1
  obtain ⟨i, hi, h3, hmin⟩ := matchA_starL_elim h2
  obtain ⟨r4, h4, he4⟩ := matchA_closeG_elim h3
  obtain ⟨r5, h5, he5⟩ := matchA_openG_elim h4
  obtain ⟨hls, h6⟩ := matchA_bol_elim h5
  obtain ⟨q2, hq2a, hq2b, h7⟩ := matchA_starG_elim h6
  obtain ⟨hsw, h8⟩ := matchA_lit_elim h7
  obtain ⟨r9, h9, he9⟩ := matchA_closeG_elim h8
  have h10 := matchA_nil_elim h9
  subst h10
  subst he9
  subst he5
  subst he4
  subst he2
  subst he1
  refine ⟨h0 + i, by omega, by simp; omega, by simp, by simp, ?_, ?_⟩
  · rw [← suffixTail_isSome]
    rw [h3]
    rfl
  · intro q hq1 hq2
    rw [← suffixTail_isSome]
    have : q = h0 + (q - h0) := by omega
    rw [this, hmin (q - h0) (by omega)]
    rfl

/-- After the selector part of the header (whatever its mode), the match
continues with the suffix pattern at some position not before the current
one. -/
theorem mode_tail_elim {ma : List Atom} {s : Str} {p : Nat} {r1 : MRes}
    (hmode : (∃ cs, ma = [.lit cs]) ∨ (∃ cs cs2, ma = [.lit cs, .starG .ws, .lit cs2]) ∨
      ma = [.starL .anyAll])
    (hm : matchA (ma ++ .starG .notNL :: suffixAtoms) s p = some r1) :
    ∃ h2, p ≤ h2 ∧ matchA suffixAtoms s h2 = some r1 := by
  rcases hmode with ⟨cs, rfl⟩ | ⟨cs, cs2, rfl⟩ | rfl
  · simp only [List.cons_append, List.nil_append] at hm
    obtain ⟨hsw, h1⟩ := matchA_lit_elim hm
    obtain ⟨h2, hh2, hh3, h4⟩ := matchA_starG_elim h1
    exact ⟨h2, by omega, h4⟩
  · simp only [List.cons_append, List.nil_append] at hm
    obtain ⟨hsw, h1⟩ := matchA_lit_elim hm
    obtain ⟨q, hqa, hqb, h2⟩ := matchA_starG_elim h1
    obtain ⟨hsw2, h3⟩ := matchA_lit_elim h2
    obtain ⟨h2x, hh2, hh3, h4⟩ := matchA_starG_elim h3
    exact ⟨h2x, by omega, h4⟩
  · simp only [List.cons_append, List.nil_append] at hm
    obtain ⟨i, hi, h1, _⟩ := matchA_starL_elim hm
    obtain ⟨h2, hh2, hh3, h4⟩ := matchA_starG_elim h1
    exact ⟨h2, by omega, h4⟩

/-- Dissecting a successful match of any compiled `method_pattern`: group 1
opens at the match start, and past the header the suffix pattern matches at
a strictly later position carrying all remaining marks. -/
theorem pattern_elim {args : SmaliArgs} {pat : List Atom} {s : Str} {a : Nat} {r : MRes}
    (hp : mkMethodPattern args = some pat) (hm : matchA pat s a = some r) :
    ∃ h2 rs, a < h2 ∧ matchA suffixAtoms s h2 = some rs ∧
      r = ⟨rs.mend, (1, a) :: rs.opens, rs.closes⟩ := by
  rw [mkMethodPattern] at hp
  obtain ⟨ma, hma, hpat⟩ := Option.map_eq_some'.mp hp
  have hmode : (∃ cs, ma = [.lit cs]) ∨ (∃ cs cs2, ma = [.lit cs, .starG .ws, .lit cs2]) ∨
      ma = [.starL .anyAll] := by
    rw [modeAtoms] at hma
    split at hma
    · split at hma
      · exact Or.inl ⟨_, (Option.some_inj.mp hma).symm⟩
      · exact Or.inr (Or.inl ⟨_, _, (Option.some_inj.mp hma).symm⟩)
    · split at hma
      · exact Or.inr (Or.inr (Option.some_inj.mp hma).symm)
      · cases hma
  subst hpat
  simp only [List.cons_append, List.nil_append, List.append_assoc, List.singleton_append] at hm
  obtain ⟨rA, hA, heA⟩ := matchA_openG_elim hm
  obtain ⟨hls, hB⟩ := matchA_bol_elim hA
  obtain ⟨q1, hq1a, hq1b, hC⟩ := matchA_starG_elim hB
  obtain ⟨hsw, hD⟩ := matchA_lit_elim hC
  obtain ⟨i2, hi2, hE, _⟩ := matchA_starL_elim hD
  obtain ⟨c, hc1, hc2, hF⟩ := matchA_one_elim hE
  obtain ⟨h2, hh2, hSuf⟩ := mode_tail_elim hmode hF
  exact ⟨h2, rA, by omega, hSuf, heA⟩

/-- Every successful match of a compiled `method_pattern` has its three
groups tiling the span, with the body ending at the *nearest* footer-marker
position after the header. -/
theorem methodPattern_groups {args : SmaliArgs} {pat : List Atom} {s : Str} {a : Nat} {r : MRes}
    (hp : mkMethodPattern args = some pat) (hm : matchA pat s a = some r) :
    ∃ h2 f0, a < h2 ∧ h2 ≤ f0 ∧ f0 ≤ r.mend ∧
      r.opens = [(1, a), (2, h2), (3, f0)] ∧ r.closes = [(1, h2), (2, f0), (3, r.mend)] ∧
      footerMatch s f0 = true ∧
      ∀ q, h2 ≤ q → q < f0 → footerMatch s q = false := by
  obtain ⟨h2, rs, hlt, hSuf, he⟩ := pattern_elim hp hm
  obtain ⟨f0, hf1, hf2, ho, hc, hfm, hmin⟩ := suffix_elim hSuf
  subst he
  exact ⟨h2, f0, hlt, hf1, hf2, by rw [ho], by rw [hc], hfm, hmin⟩

/-- Eliminating a successful scan step: the match starts at or after the
scan position and is a genuine pattern match at its start. -/
theorem findFrom_elim {pat : List Atom} {s : Str} {p : Nat} {m : FMatch}
    (h : findFrom pat s p = some m) :
    p ≤ m.mstart ∧ matchA pat s m.mstart = some ⟨m.mend, m.opens, m.closes⟩ := by
  rw [findFrom] at h
  obtain ⟨i, hi, hf, _⟩ := firstSome_eq_some _ _ _ h
  obtain ⟨r, hr, he⟩ := Option.map_eq_some'.mp hf
  subst he
  exact ⟨by simp, hr⟩

/-- Soundness of the scan: under a nonempty-span hypothesis on the pattern,
every listed match starts at or after the scan position, spans at least one
character, is a genuine match, and consecutive matches do not overlap. -/
theorem finditerAux_sound (pat : List Atom) (s : Str)
    (hs : ∀ a r, matchA pat s a = some r → a < r.mend) :
    ∀ (fuel p : Nat),
      (∀ m ∈ finditerAux pat s fuel p,
        p ≤ m.mstart ∧ m.mstart < m.mend ∧
          matchA pat s m.mstart = some ⟨m.mend, m.opens, m.closes⟩) ∧
      List.Chain' (fun m1 m2 => m1.mend ≤ m2.mstart) (finditerAux pat s fuel p) := by
  intro fuel
  induction fuel with
  | zero =>
    intro p
    rw [finditerAux]
    exact ⟨by simp, by simp⟩
  | succ fuel ih =>
    intro p
    cases hf : findFrom pat s p with
    | none =>
      simp only [finditerAux, hf]
      exact ⟨by simp, by simp⟩
    | some m =>
      obtain ⟨hp, hm⟩ := findFrom_elim hf
      have hlt : m.mstart < m.mend := hs m.mstart ⟨m.mend, m.opens, m.closes⟩ hm
      have hne : ¬ (m.mend = m.mstart) := by omega
      simp only [finditerAux, hf, if_neg hne]
      obtain ⟨ih1, ih2⟩ := ih m.mend
      refine ⟨?_, ?_⟩
      · intro m2 hm2
        rcases List.mem_cons.mp hm2 with rfl | hm2
        · exact ⟨hp, hlt, hm⟩
        · obtain ⟨h1, h2, h3⟩ := ih1 m2 hm2
          exact ⟨by omega, h2, h3⟩
      · rw [List.chain'_cons']
        refine ⟨?_, ih2⟩
        intro m2 hm2
        exact (ih1 m2 (List.mem_of_mem_head? hm2)).1

/-- Any compiled `method_pattern` only produces matches with nonempty spans. -/
theorem methodPattern_strict {args : SmaliArgs} {pat : List Atom} {s : Str}
    (hp : mkMethodPattern args = some pat) :
    ∀ a r, matchA pat s a = some r → a < r.mend := by
  intro a r hm
  obtain ⟨h2, f0, h1, h2', h3, _, _, _, _⟩ := methodPattern_groups hp hm
  omega

/-- One locating pass under a compiled `method_pattern`: every listed match
is genuine with a nonempty span, and consecutive matches do not overlap. -/
theorem finditer_sound {args : SmaliArgs} {pat : List Atom} {content : Str}
    (hp : mkMethodPattern args = some pat) :
    (∀ m ∈ finditer pat content,
      matchA pat content m.mstart = some ⟨m.mend, m.opens, m.closes⟩ ∧ m.mstart < m.mend) ∧
    List.Chain' (fun m1 m2 => m1.mend ≤ m2.mstart) (finditer pat content) := by
  obtain ⟨h1, h2⟩ :=
    finditerAux_sound pat content (methodPattern_strict hp) (content.length + 1) 0
  rw [finditer]
  exact ⟨fun m hm => ⟨(h1 m hm).2.2, (h1 m hm).2.1⟩, h2⟩

/-- C2: the blocks produced by one locating pass of `process_content` over
the compiled `method_pattern` are ordered by position and pairwise
non-overlapping, and each block's span runs from its header anchor to the
nearest following footer marker (the lazy body never crosses a position
where `^\s*\.end method` matches). -/
theorem c2_locating_pass_invariants (args : SmaliArgs) (pat : List Atom) (content : Str)
    (hp : mkMethodPattern args = some pat) :
    strictSpans (finditer pat content) ∧ orderedDisjoint (finditer pat content) ∧
      ∀ m ∈ finditer pat content, blockShape content m := by
  obtain ⟨h1, h2⟩ := finditer_sound hp
  refine ⟨fun m hm => (h1 m hm).2, h2, ?_⟩
  intro m hm
  obtain ⟨hmA, _⟩ := h1 m hm
  obtain ⟨h2x, f0, hlt, hle1, hle2, ho, hc, hfm, hmin⟩ := methodPattern_groups hp hmA
  dsimp only at ho hc
  rw [blockShape]
  have g1 : m.grp 1 = (m.mstart, h2x) := by rw [FMatch.grp, ho, hc]; simp [List.lookup]
  have g2 : m.grp 2 = (h2x, f0) := by rw [FMatch.grp, ho, hc]; simp [List.lookup]
  have g3 : m.grp 3 = (f0, m.mend) := by rw [FMatch.grp, ho, hc]; simp [List.lookup]
  rw [g1, g2, g3]
  exact ⟨rfl, rfl, rfl, rfl, hfm, hmin⟩

/-- Witness for C2 at a concrete selector and file. -/
theorem c2_locating_pass_invariants_witness :
    strictSpans (finditer c2wPat c2wContent) ∧ orderedDisjoint (finditer c2wPat c2wContent) ∧
      blockShape c2wContent c2wMatch := by
  have H := c2_locating_pass_invariants c2wArgs c2wPat c2wContent rfl
  exact ⟨H.1, H.2.1, H.2.2 c2wMatch (by decide)⟩

/-- Adjacent slices concatenate. -/
theorem pySlice_append {s : Str} {a b c : Nat} (h1 : a ≤ b) (h2 : b ≤ c) :
    pySlice s a b ++ pySlice s b c = pySlice s a c := by
  rw [pySlice, pySlice, pySlice, List.drop_take, List.drop_take, List.drop_take]
  have hb : s.drop b = (s.drop a).drop (b - a) := by
    rw [List.drop_drop]
    congr 1
    omega
  rw [hb]
  have hc : c - a = (b - a) + (c - b) := by omega
  rw [hc, List.take_add]

/-- A failed conjunctive filter test with a truthy flag means the
containment test passed. -/
theorem bool_filter_pass {A B : Bool} (h : ¬ ((A && !B) = true)) (hA : A = true) : B = true := by
  subst hA
  cases B with
  | false => simp at h
  | true => rfl

/-- One iteration of the match loop only ever appends a pair satisfying
`stepAdds`. -/
theorem processMatch_mem_step (args : SmaliArgs) (content : Str)
    (acc : List (Str × Str) × Bool) (m : FMatch) :
    ∀ r ∈ (processMatch args content acc m).1, r ∈ acc.1 ∨ stepAdds args content m r := by
  intro r hr
  rw [processMatch] at hr
  split at hr
  · exact Or.inl hr
  · next hseek =>
    split at hr
    · exact Or.inl hr
    · next hret =>
      split at hr
      · next hdel =>
        rcases List.mem_append.mp hr with h | h
        · exact Or.inl h
        · right
          rw [stepAdds]
          rw [List.mem_singleton.mp h]
          exact ⟨fun hA => bool_filter_pass hseek hA, fun hA => bool_filter_pass hret hA,
            rfl, Or.inl ⟨hdel, rfl⟩⟩
      · next hdel =>
        split at hr
        · next hmod =>
          split at hr
          · exact Or.inl hr
          · next hne =>
            rcases List.mem_append.mp hr with h | h
            · exact Or.inl h
            · right
              rw [stepAdds]
              rw [List.mem_singleton.mp h]
              exact ⟨fun hA => bool_filter_pass hseek hA, fun hA => bool_filter_pass hret hA,
                rfl, Or.inr ⟨Bool.not_eq_true _ ▸ hdel, hmod, rfl, hne⟩⟩
        · exact Or.inl hr

/-- One iteration's flag is the old flag or-ed with `contributes`. -/
theorem processMatch_flag (args : SmaliArgs) (content : Str)
    (acc : List (Str × Str) × Bool) (m : FMatch) :
    (processMatch args content acc m).2 = (acc.2 || contributes args content m) := by
  by_cases h1 : (strTruthy args.seek_keyword &&
      !containsSub (args.seek_keyword.getD []) (bodyOf content m)) = true
  · simp [processMatch, contributes, h1]
  · by_cases h2 : (strTruthy args.return_type &&
        !containsSub (retSig args) (headerOf content m)) = true
    · simp [processMatch, contributes, h1, h2]
    · by_cases h3 : args.delete_method = true
      · simp [processMatch, contributes, h1, h2, h3]
      · by_cases h4 : (applyModifications args (bodyOf content m)).2 = true
        · by_cases h5 : fullOf content m =
              headerOf content m ++ ((applyModifications args (bodyOf content m)).1 ++
                footerOf content m)
          · simp [processMatch, contributes, h1, h2, h3, h4, h5]
          · simp [processMatch, contributes, h1, h2, h3, h4, h5]
        · simp [processMatch, contributes, h1, h2, h3, h4]

/-- The folded flag is true iff some listed match contributes. -/
theorem foldl_processMatch_flag (args : SmaliArgs) (content : Str) :
    ∀ (ms : List FMatch) (acc : List (Str × Str) × Bool),
      (ms.foldl (processMatch args content) acc).2 =
        (acc.2 || ms.any (contributes args content)) := by
  intro ms
  induction ms with
  | nil => intro acc; simp
  | cons m ms ih =>
    intro acc
    rw [List.foldl_cons, ih, processMatch_flag, List.any_cons, Bool.or_assoc]

/-- Every pair in the folded replacement list satisfies `stepAdds` for some
listed match. -/
theorem foldl_processMatch_mem (args : SmaliArgs) (content : Str) :
    ∀ (ms : List FMatch) (acc : List (Str × Str) × Bool),
      ∀ r ∈ (ms.foldl (processMatch args content) acc).1,
        r ∈ acc.1 ∨ ∃ m ∈ ms, stepAdds args content m r := by
  intro ms
  induction ms with
  | nil =>
    intro acc r hr
    rw [List.foldl_nil] at hr
    exact Or.inl hr
  | cons m ms ih =>
    intro acc r hr
    rw [List.foldl_cons] at hr
    rcases ih _ r hr with h | ⟨m2, hm2, hs⟩
    · rcases processMatch_mem_step args content acc m r h with h' | hs
      · exact Or.inl h'
      · exact Or.inr ⟨m, List.mem_cons_self m ms, hs⟩
    · exact Or.inr ⟨m2, List.mem_cons_of_mem m hm2, hs⟩

/-- Every replacement pair of `process_content` originates in a located
match. -/
theorem procAcc_mem (args : SmaliArgs) (pat : List Atom) (content : Str) :
    ∀ r ∈ (procAcc args pat content).1,
      ∃ m ∈ finditer pat content, stepAdds args content m r := by
  intro r hr
  rw [procAcc] at hr
  rcases foldl_processMatch_mem args content _ _ r hr with h | h
  · cases h
  · exact h

/-- The modified flag of `process_content` is true iff some located match
contributes a change. -/
theorem processContent_flag (args : SmaliArgs) (pat : List Atom) (content : Str) :
    (processContent args pat content).2 =
      (finditer pat content).any (contributes args content) := by
  rw [processContent]
  cases hl : finditer pat content with
  | nil => simp
  | cons m ms =>
    simp only [List.isEmpty_cons, Bool.false_eq_true, if_false]
    rw [procAcc, hl, foldl_processMatch_flag]
    simp

/-- C1 (amended): `patch_file` writes back exactly when the fast-reject path
is not taken and at least one located block contributes a change (a
deletion, or a body transformation that alters the block's text).  The
write is *not* additionally guarded by comparing the final content with the
content originally read; the counterexample exhibits a write of identical
content. -/
theorem c1_write_iff_some_block_changed (args : SmaliArgs) (pat : List Atom) (content : Str) :
    (patchFile args pat content).2 =
      (!fastRejected args content && (finditer pat content).any (contributes args content)) := by
  rw [patchFile]
  by_cases h : fastRejected args content = true
  · simp [h]
  · rw [Bool.not_eq_true] at h
    by_cases h2 : (processContent args pat content).2 = true
    · simp [h, ← processContent_flag, h2]
    · rw [Bool.not_eq_true] at h2
      simp [h, ← processContent_flag, h2]

/-- C1 counterexample: with `-m a -reg "(.)(.)" "\2\1"` on two blocks whose
bodies are each other's adjacent-pair swap, both blocks are marked changed
and rewritten, yet the two ordinal splices cancel each other: `patch_file`
performs a write although the resulting full content is byte-identical to
the content originally read — refuting "written back only if … the
resulting full content differs from the content originally read". -/
theorem c1_write_without_content_change :
    mkMethodPattern c1Args = some c1Pat ∧
    patchFile c1Args c1Pat c1Content = (c1Content, true) := by
  exact ⟨rfl, by decide⟩

/-- C3 counterexample: with FullRewrite text `x\n.end method` (a rewrite
text containing a line-start footer marker) the first application writes,
and the *second* application of the identical spec writes again — refuting
"performs no write on the second application". -/
theorem c3_second_application_writes_again :
    mkMethodPattern c3BadArgs = some c3BadPat ∧
    (patchFile c3BadArgs c3BadPat c3Start).2 = true ∧
    (patchFile c3BadArgs c3BadPat (patchFile c3BadArgs c3BadPat c3Start).1).2 = true := by
  exact ⟨rfl, by decide, by decide⟩

/-- C3 (amended): applying an identical FullRewrite(text) spec twice in a
row writes on the first application and performs no write on the second,
provided the expanded rewrite text introduces no line-start footer marker
into the block and the rewritten block differs from the original —
exhibited on a representative file.  (The no-write on the second run comes
from the per-block `full_block != new_block` comparison: re-matching finds
the body already equal to the rewrite text.) -/
theorem c3_file_level_idempotence_demo :
    mkMethodPattern c3Args = some c3Pat ∧
    patchFile c3Args c3Pat c3Start = (c3Rewritten, true) ∧
    patchFile c3Args c3Pat c3Rewritten = (c3Rewritten, false) := by
  exact ⟨rfl, by decide, by decide⟩

/-- C4: with both a keyword and a return-type filter configured, a located
block yields a replacement only if the keyword is a literal case-sensitive
substring of its body AND the header contains `)` followed by the return
type (filters are conjunctive; a failing block is skipped, which is not an
error — the model has no error outcome for it).  In particular, on three
candidate blocks of return types Z, V, Z where only the V-typed body holds
the keyword, all three are located but zero are transformed and the content
is returned unchanged. -/
theorem c4_filters_conjunctive :
    (∀ (args : SmaliArgs) (pat : List Atom) (content : Str) (r : Str × Str),
      strTruthy args.seek_keyword = true → strTruthy args.return_type = true →
      r ∈ (procAcc args pat content).1 → passesFilters args pat content r) ∧
    (finditer c4Pat c4Content).length = 3 ∧
    processContent c4Args c4Pat c4Content = (c4Content, false) := by
  refine ⟨?_, by decide, by decide⟩
  intro args pat content r hseek hret hr
  obtain ⟨m, hm, hs⟩ := procAcc_mem args pat content r hr
  rw [stepAdds] at hs
  exact ⟨m, hm, hs.2.2.1, hs.1 hseek, hs.2.1 hret⟩

/-- Witness for C4 at a spec whose two filters are both active and both
pass on the middle block. -/
theorem c4_filters_conjunctive_witness :
    strTruthy c4wArgs.seek_keyword = true ∧ strTruthy c4wArgs.return_type = true ∧
    passesFilters c4wArgs c4wPat c4Content c4wRep := by
  exact ⟨by decide, by decide,
    c4_filters_conjunctive.1 c4wArgs c4wPat c4Content c4wRep (by decide) (by decide) (by decide)⟩

/-- C5 counterexample: the same block text occurs at offset 1 (mid-line, so
not located) and at a line start (located, deleted).  The ordinal splice
removes the *first* occurrence, so the located block's bytes survive and
text outside the matched blocks is changed — refuting "the entire block
text is removed …, leaving the text outside the matched blocks unchanged". -/
theorem c5_delete_splices_wrong_occurrence :
    mkMethodPattern c5Args = some c5Pat ∧
    processContent c5Args c5Pat c5Content = (c5Result, true) ∧
    containsSub ((".method a()V\nq\n.end method").data) c5Result = true := by
  exact ⟨rfl, by decide, by decide⟩

/-- C5 (amended): when DeleteMethod is set the body-transformation chain is
never consulted (the outcome is invariant under arbitrary changes to the
seven transform fields), and every replacement pair maps the full text of a
located block to the empty string; the splice removes the first remaining
occurrence of each such text — the block itself whenever its text does not
occur earlier — as in the representative two-`checkDowngrade`-block run,
which removes both full blocks and leaves the surrounding text unchanged. -/
theorem c5_delete_method_amended :
    (∀ (a b : SmaliArgs) (pat : List Atom) (content : Str),
      a.delete_method = true → selectorAgree a b →
      processContent a pat content = processContent b pat content) ∧
    (∀ (args : SmaliArgs) (pat : List Atom) (content : Str) (r : Str × Str),
      args.delete_method = true → r ∈ (procAcc args pat content).1 →
      deleteRep pat content r) ∧
    processContent c5dArgs c5dPat c5dContent = (c5dResult, true) := by
  refine ⟨?_, ?_, by decide⟩
  · intro a b pat content hdel hag
    obtain ⟨h1, h2, h3, h4⟩ := hag
    have hstep : ∀ (acc : List (Str × Str) × Bool) (m : FMatch),
        processMatch a content acc m = processMatch b content acc m := by
      intro acc m
      rw [processMatch, processMatch, retSig, retSig, ← h2, ← h3, ← h4, hdel]
      simp
    have hfold : ∀ (ms : List FMatch) (acc : List (Str × Str) × Bool),
        ms.foldl (processMatch a content) acc = ms.foldl (processMatch b content) acc := by
      intro ms
      induction ms with
      | nil => intro acc; rfl
      | cons m ms ih => intro acc; rw [List.foldl_cons, List.foldl_cons, hstep, ih]
    rw [processContent, processContent, procAcc, procAcc, hfold]
  · intro args pat content r hdel hr
    obtain ⟨m, hm, hs⟩ := procAcc_mem args pat content r hr
    rw [stepAdds] at hs
    rcases hs.2.2.2 with ⟨_, h2⟩ | ⟨hfalse, _⟩
    · exact ⟨m, hm, Prod.ext hs.2.2.1 h2⟩
    · rw [hdel] at hfalse; cases hfalse

/-- Witness for C5: the transform-field independence and the
deleted-pair shape at the concrete two-block run. -/
theorem c5_delete_method_amended_witness :
    processContent c5dArgs c5dPat c5dContent = processContent c5wB c5dPat c5dContent ∧
    deleteRep c5dPat c5dContent ((".method checkDowngrade()Z\nA\n.end method").data, []) := by
  constructor
  · exact c5_delete_method_amended.1 c5dArgs c5wB c5dPat c5dContent rfl ⟨rfl, rfl, rfl, rfl⟩
  · exact c5_delete_method_amended.2.1 c5dArgs c5dPat c5dContent _ rfl (by decide)

/-- C6: if the spec supplies neither a truthy method selector nor a truthy
keyword, construction fails (the `sys.exit(1)` branch, modelled as `none`)
— and conversely — and under that failure the file pipeline never runs, so
no content is produced or touched. -/
theorem c6_config_error_without_selector (args : SmaliArgs) (content : Str) :
    (mkMethodPattern args = none ↔
      (strTruthy args.method = false ∧ strTruthy args.seek_keyword = false)) ∧
    (mkMethodPattern args = none → runOnFile args content = none) := by
  constructor
  · constructor
    · intro h
      rw [mkMethodPattern, modeAtoms] at h
      by_cases h1 : strTruthy args.method = true
      · rw [if_pos h1] at h
        split at h <;> simp at h
      · rw [Bool.not_eq_true] at h1
        by_cases h2 : strTruthy args.seek_keyword = true
        · rw [if_neg (by rw [h1]; exact Bool.false_ne_true), if_pos h2] at h
          simp at h
        · rw [Bool.not_eq_true] at h2
          exact ⟨h1, h2⟩
    · rintro ⟨h1, h2⟩
      rw [mkMethodPattern, modeAtoms, h1, h2]
      rfl
  · intro h
    rw [runOnFile, h]
    rfl

/-- Witness for C6: the all-defaults spec is rejected and no file runs. -/
theorem c6_config_error_without_selector_witness :
    mkMethodPattern noArgs = none ∧ runOnFile noArgs (("x").data) = none := by
  have H := c6_config_error_without_selector noArgs (("x").data)
  have h0 : mkMethodPattern noArgs = none := H.1.mpr ⟨rfl, rfl⟩
  exact ⟨h0, H.2 h0⟩

/-- The empty needle is a substring of everything. -/
theorem containsSub_nil_left : ∀ s : Str, containsSub [] s = true := by
  intro s
  cases s with
  | nil => rfl
  | cons c r => rfl

/-- If the needle occurs nowhere, the replace scan copies the string. -/
theorem replBody_id {o0 : Char} {os n : Str} :
    ∀ (fuel : Nat) (s : Str), containsSub (o0 :: os) s = false →
      replBody o0 os n fuel s = s := by
  intro fuel
  induction fuel with
  | zero =>
    intro s h
    cases s <;> rfl
  | succ fuel ih =>
    intro s h
    cases s with
    | nil => rfl
    | cons c rest =>
      rw [containsSub, Bool.or_eq_false_iff] at h
      rw [replBody, if_neg (by rw [h.1]; exact Bool.false_ne_true), ih rest h.2]

/-- C7: LiteralReplace is a guarded no-op — when `old` does not occur in
the body, the body is returned byte-identical (even the unguarded
`str.replace` would not change it) and the changed flag is left as it was;
when `old` occurs, the body becomes the replace-all result and the flag is
set. -/
theorem c7_literal_replace (o n body : Str) (flag : Bool) :
    (containsSub o body = false →
      rimStep (some (o, n)) (body, flag) = (body, flag) ∧ replaceAll body o n = body) ∧
    (containsSub o body = true →
      rimStep (some (o, n)) (body, flag) = (replaceAll body o n, true)) := by
  constructor
  · intro h
    constructor
    · rw [rimStep]
      exact if_neg (by rw [h]; exact Bool.false_ne_true)
    · cases o with
      | nil => rw [containsSub_nil_left] at h; cases h
      | cons o0 os => exact replBody_id body.length body h
  · intro h
    rw [rimStep]
    exact if_pos h

/-- Witness for C7: a needle that is absent leaves body and flag alone; a
needle that occurs is replaced and flips the flag. -/
theorem c7_literal_replace_witness :
    (rimStep (some ((("z").data), (("w").data))) ((("abc").data), false) =
        ((("abc").data), false) ∧
      replaceAll (("abc").data) (("z").data) (("w").data) = ("abc").data) ∧
    rimStep (some ((("b").data), (("w").data))) ((("abc").data), false) =
      ((("awc").data), true) := by
  constructor
  · exact (c7_literal_replace (("z").data) (("w").data) (("abc").data) false).1 (by decide)
  · rw [(c7_literal_replace (("b").data) (("w").data) (("abc").data) false).2 (by decide)]
    decide

/-- C8: InsertAtLineIndex splits the body on line breaks, clamps the index
into `[0, lineCount]` (the clamp equals `max 0 (min i lineCount)`), and
inserts the formatted code — possibly multi-line, but joined into a single
inserted element, hence a contiguous order-preserving run — at that
position; index 0 prepends a new first element, and index 99 on a five-line
body appends at the end (as does any over-large index, and a negative index
prepends). -/
theorem c8_insert_at_line_index :
    (∀ (i : Int) (len : Nat), clampIdx i len = (max 0 (min i (len : Int))).toNat) ∧
    (∀ (sIdx code body : Str) (flag : Bool) (i : Int), pyToInt sIdx = some i →
      ilStep (some (sIdx, code)) (body, flag) =
        (joinNL ((splitNL body).take (clampIdx i (splitNL body).length) ++
          ilBlock code :: (splitNL body).drop (clampIdx i (splitNL body).length)), true)) ∧
    ilStep (some ((("0").data), (("x\\ny").data))) (il5Body, false) =
      (joinNL (ilBlock (("x\\ny").data) :: splitNL il5Body), true) ∧
    ilStep (some ((("99").data), (("x").data))) (il5Body, false) =
      (joinNL (splitNL il5Body ++ [ilBlock (("x").data)]), true) ∧
    ilStep (some ((("-3").data), (("x").data))) (il5Body, false) =
      (joinNL (ilBlock (("x").data) :: splitNL il5Body), true) := by
  refine ⟨?_, ?_, by decide, by decide, by decide⟩
  · intro i len
    rw [clampIdx]
    split_ifs <;> omega
  · intro sIdx code body flag i hp
    rw [ilStep]
    dsimp only
    rw [hp]

/-- Witness for C8: a parseable over-large index on the five-line body
appends at the end. -/
theorem c8_insert_at_line_index_witness :
    pyToInt (("7").data) = some 7 ∧
    ilStep (some ((("7").data), (("x").data))) (il5Body, false) =
      (joinNL (splitNL il5Body ++ [ilBlock (("x").data)]), true) := by
  refine ⟨by decide, ?_⟩
  rw [c8_insert_at_line_index.2.1 (("7").data) (("x").data) il5Body false 7 (by decide)]
  decide

/-- C9: a non-numeric InsertAtLineIndex index does not abort the chain —
`apply_modifications` returns exactly what it returns with the `-il` flag
absent, so the body and changed flag are whatever the earlier primitives
(which still apply) produced. -/
theorem c9_malformed_index_skipped (args : SmaliArgs) (body sIdx code : Str)
    (hil : args.insert_line = some (sIdx, code)) (hp : pyToInt sIdx = none) :
    applyModifications args body =
      applyModifications
        ⟨args.method, args.seek_keyword, args.iname, args.remake, args.replace_in_method,
         args.regex_replace, args.delete_in_method, args.delete_method, args.after_line,
         args.before_line, none, args.return_type⟩ body := by
  rw [applyModifications, applyModifications]
  dsimp only
  rw [hil]
  simp only [ilStep, hp]

/-- Witness for C9: `-rim X Y` still applies while the malformed `-il oops`
is skipped. -/
theorem c9_malformed_index_skipped_witness :
    c9Args.insert_line = some ((("oops").data), (("nop").data)) ∧
    pyToInt (("oops").data) = none ∧
    applyModifications c9Args (("\nX\n").data) = applyModifications c9ArgsNoIl (("\nX\n").data) ∧
    applyModifications c9Args (("\nX\n").data) = ((("\nY\n").data), true) := by
  refine ⟨rfl, by decide, ?_, by decide⟩
  exact c9_malformed_index_skipped c9Args (("\nX\n").data) (("oops").data) (("nop").data)
    rfl (by decide)

/-- Under a compiled `method_pattern`, every located match's full text is
the concatenation of its header, body and footer groups. -/
theorem finditer_full_split {args : SmaliArgs} {pat : List Atom} {content : Str}
    (hp : mkMethodPattern args = some pat) :
    ∀ m ∈ finditer pat content,
      fullOf content m = headerOf content m ++ (bodyOf content m ++ footerOf content m) := by
  intro m hm
  obtain ⟨hmA, _⟩ := (finditer_sound hp).1 m hm
  obtain ⟨h2x, f0, hlt, hle1, hle2, ho, hc, _, _⟩ := methodPattern_groups hp hmA
  dsimp only at ho hc hle2
  have g1 : m.grp 1 = (m.mstart, h2x) := by rw [FMatch.grp, ho, hc]; simp [List.lookup]
  have g2 : m.grp 2 = (h2x, f0) := by rw [FMatch.grp, ho, hc]; simp [List.lookup]
  have g3 : m.grp 3 = (f0, m.mend) := by rw [FMatch.grp, ho, hc]; simp [List.lookup]
  rw [fullOf, headerOf, bodyOf, footerOf, g1, g2, g3]
  dsimp only
  rw [pySlice_append (by omega) (by omega), pySlice_append (by omega) (by omega)]

/-- C10: every replacement pair recorded for a non-deleted block splices in
the original header bytes, the transformed body, and the original footer
bytes: the old text is header ++ body ++ footer of a located block and the
new text is header ++ `apply_modifications`(body) ++ footer, for every
combination of the seven body primitives. -/
theorem c10_header_footer_preserved (args : SmaliArgs) (pat : List Atom) (content : Str)
    (r : Str × Str) (hp : mkMethodPattern args = some pat)
    (hdel : args.delete_method = false) (hr : r ∈ (procAcc args pat content).1) :
    splicedFromBlock args pat content r := by
  obtain ⟨m, hm, hs⟩ := procAcc_mem args pat content r hr
  rw [stepAdds] at hs
  rcases hs.2.2.2 with ⟨htrue, _⟩ | ⟨_, _, h2, _⟩
  · rw [hdel] at htrue; cases htrue
  · refine ⟨m, hm, ?_, h2⟩
    rw [hs.2.2.1, finditer_full_split hp m hm, List.append_assoc]

/-- Witness for C10 at a literal-replacement run on one block. -/
theorem c10_header_footer_preserved_witness :
    mkMethodPattern c10wArgs = some c10wPat ∧ c10wArgs.delete_method = false ∧
    splicedFromBlock c10wArgs c10wPat c10wContent c10wRep := by
  exact ⟨rfl, rfl,
    c10_header_footer_preserved c10wArgs c10wPat c10wContent c10wRep rfl rfl (by decide)⟩
